import Mathlib

/-!
Verification of the interprocess message queue of
`src/include/boost/log/utility/interprocess_message_queue.hpp`.

The repository ships only the class declaration (with inline move/close
logic and documentation); the implementation behind the `BOOST_LOG_API`
declarations (`send`, `try_send`, `receive`, `try_receive`, `clear`,
`stop`, `reset`, `open_or_create`, `do_close`) is not under `src/`.
Those operations are modelled from the specification (spec.md §3, §4.3),
each marked `Modelled from the spec:` in its doc comment.

Messages are byte strings, modelled as `List Nat`.  The queue state is
the Header of §3 together with the slot array; a slot stores the message
it holds (the 4-byte size prefix of the binary slot layout is
represented by the list's length).  The model is sequential: a wait on a
condition variable that no other thread can signal is the outcome
`blocked`.
-/

namespace IpcMQ

/-- Outcome of a queue operation, separating the boolean-false channel
(interrupted / would-block), the blocking case (a sequential model of a
wait on a condition variable that nothing will ever signal), and a thrown
`std::logic_error`. -/
inductive Outcome where
  | success     : Outcome  -- returned `true`
  | interrupted : Outcome  -- returned `false` with `errno EINTR`
  | wouldBlock  : Outcome  -- `try_*` returned `false` on a full/empty queue
  | blocked     : Outcome  -- a blocking call waits on a condition variable
  | logicError  : Outcome  -- `std::logic_error` thrown
  deriving DecidableEq, Repr

/-- Modelled from the spec: the Header of §3 (the mutable fields
`count`, `head`, `tail`, `stopped` and the creator-set capacities
`max_queue_size`, `max_message_size`) together with the slot array.
The implementation structure holding this state is not under `src/`. -/
structure QueueState where
  max_queue_size : Nat
  max_message_size : Nat
  count : Nat
  head : Nat
  tail : Nat
  stopped : Bool
  slots : List (List Nat)
  deriving DecidableEq, Repr

/-- Modelled from the spec: §3 Lifecycle, *Create* — zero
`count/head/tail/stopped`, capacities as given, `max_queue_size` slots
(uninitialized slots are modelled as empty). -/
def createQueue (mqs mms : Nat) : QueueState :=
  { max_queue_size := mqs
    max_message_size := mms
    count := 0
    head := 0
    tail := 0
    stopped := false
    slots := List.replicate mqs [] }

/-- Modelled from the spec: §4.3 `send` step 5 — copy the message into
slot `tail`, advance `tail` modulo `max_queue_size`, increment `count`. -/
def enqueue (q : QueueState) (msg : List Nat) : QueueState :=
  { q with
    slots := q.slots.set q.tail msg
    tail := (q.tail + 1) % q.max_queue_size
    count := q.count + 1 }

/-- Modelled from the spec: §4.3 `receive` step 5 (index part) — advance
`head` modulo `max_queue_size`, decrement `count`. -/
def dequeue (q : QueueState) : QueueState :=
  { q with
    head := (q.head + 1) % q.max_queue_size
    count := q.count - 1 }

/-- Modelled from the spec: §4.3 protocol for `send(data, size)`.
Step 1 validates `size ≤ max_message_size` (else `std::logic_error`);
step 3 waits while `count == max_queue_size ∧ ¬stopped` (in this
sequential model the wait never returns: `blocked`); step 4 returns
*interrupted* if `stopped`; steps 5-7 enqueue and return *success*.
The implementation is not under `src/`. -/
def send (q : QueueState) (msg : List Nat) : Outcome × QueueState :=
  if q.max_message_size < msg.length then (.logicError, q)
  else if q.count = q.max_queue_size ∧ q.stopped = false then (.blocked, q)
  else if q.stopped then (.interrupted, q)
  else (.success, enqueue q msg)

/-- Modelled from the spec: §4.3 `try_send` — as `send` but the wait is
replaced by an immediate *would-block* return when
`count == max_queue_size`, regardless of `stopped`; per §7 a `false`
from a `try_*` call always means *would-block*.
The implementation is not under `src/`. -/
def try_send (q : QueueState) (msg : List Nat) : Outcome × QueueState :=
  if q.max_message_size < msg.length then (.logicError, q)
  else if q.count = q.max_queue_size then (.wouldBlock, q)
  else (.success, enqueue q msg)

/-- Result of a `receive`/`try_receive` call: the outcome, the queue
after the call, the caller's buffer after the call, and the
`message_size` out-parameter after the call. -/
structure ReceiveResult where
  outcome : Outcome
  q : QueueState
  buffer : List Nat
  out_size : Nat
  deriving DecidableEq, Repr

/-- Modelled from the spec: §4.3 protocol for
`receive(buffer, buffer_size, &out_size)`.  Step 1 validates
`buffer_size ≥ max_message_size` (else `std::logic_error`); step 3 waits
while `count == 0 ∧ ¬stopped` (sequentially: `blocked`); step 4 returns
*interrupted* if `stopped`; step 5 reads the message from slot `head`,
copies its payload into the front of the buffer, sets `out_size` to its
size, and dequeues.  On a non-success return the buffer and
out-parameter are untouched.  The implementation is not under `src/`. -/
def receive (q : QueueState) (buffer : List Nat) (out_size : Nat) : ReceiveResult :=
  if buffer.length < q.max_message_size then ⟨.logicError, q, buffer, out_size⟩
  else if q.count = 0 ∧ q.stopped = false then ⟨.blocked, q, buffer, out_size⟩
  else if q.stopped then ⟨.interrupted, q, buffer, out_size⟩
  else
    let msg := q.slots.getD q.head []
    ⟨.success, dequeue q, msg ++ buffer.drop msg.length, msg.length⟩

/-- Modelled from the spec: §4.3 `try_receive` — as `receive` but the
wait is replaced by an immediate *would-block* return when `count == 0`;
per §7 a `false` from a `try_*` call always means *would-block*.
The implementation is not under `src/`. -/
def try_receive (q : QueueState) (buffer : List Nat) (out_size : Nat) : ReceiveResult :=
  if buffer.length < q.max_message_size then ⟨.logicError, q, buffer, out_size⟩
  else if q.count = 0 then ⟨.wouldBlock, q, buffer, out_size⟩
  else
    let msg := q.slots.getD q.head []
    ⟨.success, dequeue q, msg ++ buffer.drop msg.length, msg.length⟩

/-- Modelled from the spec: §4.3 `clear` — set `count = head = tail = 0`
(and broadcast `not_full`, which has no state effect beyond waking
senders).  The implementation is not under `src/`. -/
def clear (q : QueueState) : QueueState :=
  { q with count := 0, head := 0, tail := 0 }

/-- Modelled from the spec: §4.3 `stop` — set `stopped = true` and
broadcast both condition variables.  The implementation is not under
`src/`. -/
def stop (q : QueueState) : QueueState :=
  { q with stopped := true }

/-- Modelled from the spec: §4.3 `reset` — set `stopped = false`.
The implementation is not under `src/`. -/
def reset (q : QueueState) : QueueState :=
  { q with stopped := false }

/-- The queue operations of the public API that act on the shared state,
used to quantify over "every queue operation". -/
inductive QueueOp where
  | sendOp (msg : List Nat)
  | trySendOp (msg : List Nat)
  | receiveOp (buffer : List Nat) (out_size : Nat)
  | tryReceiveOp (buffer : List Nat) (out_size : Nat)
  | clearOp
  | stopOp
  | resetOp
  deriving DecidableEq, Repr

/-- The queue state after applying one operation. -/
def applyOp (q : QueueState) (op : QueueOp) : QueueState :=
  match op with
  | .sendOp msg => (send q msg).2
  | .trySendOp msg => (try_send q msg).2
  | .receiveOp buffer out_size => (receive q buffer out_size).q
  | .tryReceiveOp buffer out_size => (try_receive q buffer out_size).q
  | .clearOp => clear q
  | .stopOp => stop q
  | .resetOp => reset q

/-- The ring invariant of §3: `count ≤ max_queue_size`, `head` and
`tail` in `[0, max_queue_size)`, `count == (tail − head) mod
max_queue_size` when the queue is not full, and `head == tail` when it
is full. -/
def ringInvariant (q : QueueState) : Prop :=
  q.count ≤ q.max_queue_size ∧
  q.head < q.max_queue_size ∧
  q.tail < q.max_queue_size ∧
  (q.count < q.max_queue_size →
    q.count = (q.max_queue_size + q.tail - q.head) % q.max_queue_size) ∧
  (q.count = q.max_queue_size → q.head = q.tail)

instance (q : QueueState) : Decidable (ringInvariant q) := by
  unfold ringInvariant; infer_instance

/-- A normalized form of the ring invariant: `tail` is determined by
`head` and `count`.  Proved equivalent to `ringInvariant` below; the
preservation proofs go through this form. -/
def ringNormal (q : QueueState) : Prop :=
  q.count ≤ q.max_queue_size ∧
  q.head < q.max_queue_size ∧
  q.tail = (q.head + q.count) % q.max_queue_size

/-- The messages stored in the queue, oldest first: slot `head` up to
slot `head + count - 1`, indices taken modulo `max_queue_size`. -/
def contents (q : QueueState) : List (List Nat) :=
  (List.range q.count).map (fun i => q.slots.getD ((q.head + i) % q.max_queue_size) [])

/-- Send each message of a list in turn, stopping at the first
non-success outcome. -/
def sendList (q : QueueState) (msgs : List (List Nat)) : Outcome × QueueState :=
  match msgs with
  | [] => (.success, q)
  | msg :: rest =>
    let r := send q msg
    if r.1 = .success then sendList r.2 rest else r

/-- Receive `n` times into the same buffer, collecting the first
`out_size` bytes delivered by each successful call, stopping at the
first non-success outcome. -/
def receiveList (q : QueueState) (n : Nat) (buffer : List Nat) (out_size : Nat) :
    Outcome × QueueState × List (List Nat) :=
  match n with
  | 0 => (.success, q, [])
  | Nat.succ k =>
    let r := receive q buffer out_size
    if r.outcome = .success then
      let rest := receiveList r.q k buffer out_size
      (rest.1, rest.2.1, r.buffer.take r.out_size :: rest.2.2)
    else (r.outcome, r.q, [])

/-- Modelled from the spec: §3 Lifecycle — the host's named shared
memory namespace, mapping a segment name to the queue that backs it (if
any).  The Segment Manager implementation is not under `src/`. -/
abbrev Registry : Type := String → Option QueueState

/-- Modelled from the spec: §3 Lifecycle *Open-or-create* — create the
segment if absent (initializing from the caller's capacities); otherwise
open the existing segment, in which case the caller's
`max_queue_size`/`max_message_size` arguments are ignored and the
header's values prevail.  Returns the updated namespace and the queue
the handle is now associated with.  The implementation is not under
`src/`. -/
def open_or_create (reg : Registry) (name : String) (mqs mms : Nat) :
    Registry × QueueState :=
  match reg name with
  | some q => (reg, q)
  | none =>
    let q := createQueue mqs mms
    (fun n => if n = name then some q else reg n, q)

/-!
The handle object (`interprocess_message_queue` itself) is a thin
wrapper around the `m_pImpl` pointer (source line 49).  A handle's state
is its `m_pImpl` value: `none` for `NULL`, `some k` for a pointer to
implementation `k`.  Aliasing matters for move assignment, so the
per-process collection of handle objects is modelled as a memory mapping
object identities to handle states.
-/

/-- The per-process memory of handle objects: object identity ↦ the
object's `m_pImpl` member (`none` = `NULL`). -/
abbrev Mem : Type := Nat → Option Nat

/-- Write one object's `m_pImpl` member. -/
def writeObj (mem : Mem) (i : Nat) (v : Option Nat) : Mem :=
  fun j => if j = i then v else mem j

/-- `is_open` (source lines 259-262): `m_pImpl != NULL`. -/
def is_open (p : Option Nat) : Bool := p.isSome

/-- Modelled from the spec: `do_close` is declared at source line 446
but implemented outside `src/`; per `close()`'s documented postcondition
`is_open() == false` (line 346) it disassociates the queue, leaving
`m_pImpl` null. -/
def do_close (p : Option Nat) : Option Nat :=
  match p with
  | _ => none

/-- `close` (source lines 348-352): `if (is_open()) do_close();`. -/
def close (p : Option Nat) : Option Nat :=
  if is_open p then do_close p else p

/-- The destructor (source lines 140-143): calls `close()`. -/
def destructor (p : Option Nat) : Option Nat := close p

/-- The move constructor (source lines 152-156), constructing object
`this` from object `that`: `m_pImpl(that.m_pImpl)` then
`that.m_pImpl = NULL`. -/
def moveConstruct (mem : Mem) (this that : Nat) : Mem :=
  let mem1 := writeObj mem this (mem that)
  writeObj mem1 that none

/-- The move assignment operator (source lines 168-173), assigning
object `that` into object `this`: a temporary `other` (identity `tmp`,
fresh) is move-constructed from `that`, `this->swap(other)` exchanges
the two `m_pImpl` values (lines 180-185), and `other` is destroyed at
end of scope, running `close()`. -/
def moveAssign (mem : Mem) (this that tmp : Nat) : Mem :=
  let mem1 := moveConstruct mem tmp that
  let p := mem1 this
  let mem2 := writeObj mem1 this (mem1 tmp)
  let mem3 := writeObj mem2 tmp p
  writeObj mem3 tmp (destructor (mem3 tmp))

/-!  Helper lemmas.  -/

theorem writeObj_self (mem : Mem) (i : Nat) (v : Option Nat) : writeObj mem i v i = v := by
  simp [writeObj]

theorem writeObj_ne (mem : Mem) (i j : Nat) (v : Option Nat) (h : j ≠ i) :
    writeObj mem i v j = mem j := by
  simp [writeObj, h]

theorem mod_cycle (m h c : Nat) (hh : h < m) (hc : c < m) :
    (m + (h + c) % m - h) % m = c := by
  rcases Nat.lt_or_ge (h + c) m with hlt | hge
  · rw [Nat.mod_eq_of_lt hlt, show m + (h + c) - h = m + c from by omega,
      Nat.add_mod_left, Nat.mod_eq_of_lt hc]
  · have hsub : (h + c) % m = h + c - m := by
      rw [Nat.mod_eq_sub_mod hge, Nat.mod_eq_of_lt (by omega)]
    rw [hsub, show m + (h + c - m) - h = c from by omega, Nat.mod_eq_of_lt hc]

theorem ringInvariant_iff_normal (q : QueueState) : ringInvariant q ↔ ringNormal q := by
  constructor
  · rintro ⟨hc, hh, ht, hnf, hf⟩
    refine ⟨hc, hh, ?_⟩
    rcases Nat.lt_or_ge q.count q.max_queue_size with hlt | hge
    · have heq := hnf hlt
      rcases le_or_lt q.head q.tail with hle | hgt
      · rw [show q.max_queue_size + q.tail - q.head
              = q.max_queue_size + (q.tail - q.head) from by omega,
          Nat.add_mod_left, Nat.mod_eq_of_lt (by omega)] at heq
        rw [heq, show q.head + (q.tail - q.head) = q.tail from by omega,
          Nat.mod_eq_of_lt ht]
      · rw [Nat.mod_eq_of_lt (by omega)] at heq
        rw [heq, show q.head + (q.max_queue_size + q.tail - q.head)
              = q.tail + q.max_queue_size from by omega,
          Nat.add_mod_right, Nat.mod_eq_of_lt ht]
    · have hcm : q.count = q.max_queue_size := by omega
      rw [hcm, Nat.add_mod_right, Nat.mod_eq_of_lt hh]
      exact (hf hcm).symm
  · rintro ⟨hc, hh, htn⟩
    have hm : 0 < q.max_queue_size := by omega
    have ht : q.tail < q.max_queue_size := htn ▸ Nat.mod_lt _ hm
    refine ⟨hc, hh, ht, ?_, ?_⟩
    · intro hlt
      rw [htn]
      exact (mod_cycle q.max_queue_size q.head q.count hh hlt).symm
    · intro hcm
      rw [htn, hcm, Nat.add_mod_right, Nat.mod_eq_of_lt hh]

theorem getD_set_ne (l : List (List Nat)) (i j : Nat) (v : List Nat) (h : i ≠ j) :
    (l.set i v).getD j [] = l.getD j [] := by
  simp [List.getD, List.getElem?_set_ne h]

theorem getD_set_self (l : List (List Nat)) (i : Nat) (v : List Nat) (h : i < l.length) :
    (l.set i v).getD i [] = v := by
  simp [List.getD, List.getElem?_set_eq_of_lt v h]

/-- An occupied slot position (offset `i < count` from `head`) is never
the `tail` slot when the queue is not full. -/
theorem occupied_ne_tail (q : QueueState) (hn : ringNormal q)
    (hlt : q.count < q.max_queue_size) (i : Nat) (hi : i < q.count) :
    (q.head + i) % q.max_queue_size ≠ q.tail := by
  obtain ⟨hc, hh, htn⟩ := hn
  rw [htn]
  intro hEq
  have h2 : Nat.ModEq q.max_queue_size (q.head + i) (q.head + q.count) := hEq
  have h3 := (Nat.modEq_iff_dvd' (by omega)).mp h2
  rw [show q.head + q.count - (q.head + i) = q.count - i from by omega] at h3
  have h5 := Nat.le_of_dvd (by omega) h3
  omega

theorem enqueue_normal (q : QueueState) (msg : List Nat) (hn : ringNormal q)
    (hlt : q.count < q.max_queue_size) : ringNormal (enqueue q msg) := by
  obtain ⟨hc, hh, htn⟩ := hn
  refine ⟨by simp only [enqueue]; omega, hh, ?_⟩
  simp only [enqueue]
  rw [htn, Nat.mod_add_mod]
  congr 1

theorem dequeue_normal (q : QueueState) (hn : ringNormal q) (hpos : 0 < q.count) :
    ringNormal (dequeue q) := by
  obtain ⟨hc, hh, htn⟩ := hn
  have hm : 0 < q.max_queue_size := by omega
  refine ⟨by simp [dequeue]; omega, by simp [dequeue]; exact Nat.mod_lt _ hm, ?_⟩
  simp only [dequeue]
  rw [htn, Nat.mod_add_mod]
  congr 1
  omega

theorem contents_enqueue (q : QueueState) (msg : List Nat) (hn : ringNormal q)
    (hs : q.slots.length = q.max_queue_size) (hlt : q.count < q.max_queue_size) :
    contents (enqueue q msg) = contents q ++ [msg] := by
  obtain ⟨hc, hh, htn⟩ := hn
  have hm : 0 < q.max_queue_size := by omega
  simp only [contents, enqueue]
  rw [List.range_succ, List.map_append]
  congr 1
  · apply List.map_congr_left
    intro i hi
    rw [List.mem_range] at hi
    exact getD_set_ne _ _ _ _
      (fun hEq => occupied_ne_tail q ⟨hc, hh, htn⟩ hlt i hi hEq.symm)
  · simp only [List.map_cons, List.map_nil]
    congr 1
    rw [← htn]
    exact getD_set_self _ _ _ (by rw [hs, htn]; exact Nat.mod_lt _ hm)

theorem contents_dequeue (q : QueueState) (hn : ringNormal q) (hpos : 0 < q.count) :
    contents q = q.slots.getD q.head [] :: contents (dequeue q) := by
  obtain ⟨hc, hh, htn⟩ := hn
  obtain ⟨k, hk⟩ : ∃ k, q.count = k + 1 := ⟨q.count - 1, by omega⟩
  simp only [contents, dequeue, hk, Nat.add_sub_cancel]
  rw [List.range_succ_eq_map]
  simp only [List.map_cons, List.map_map]
  congr 1
  · rw [Nat.add_zero, Nat.mod_eq_of_lt hh]
  · apply List.map_congr_left
    intro i hi
    simp only [Function.comp_apply, Nat.succ_eq_add_one]
    rw [Nat.mod_add_mod]
    congr 2
    omega

theorem send_success (q : QueueState) (msg : List Nat)
    (hrun : q.stopped = false) (hlt : q.count < q.max_queue_size)
    (hmsg : msg.length ≤ q.max_message_size) :
    send q msg = (.success, enqueue q msg) := by
  simp [send, hrun, Nat.not_lt.mpr hmsg, Nat.ne_of_lt hlt]

theorem receive_success (q : QueueState) (buffer : List Nat) (sz : Nat)
    (hrun : q.stopped = false) (hpos : 0 < q.count)
    (hbuf : q.max_message_size ≤ buffer.length) :
    receive q buffer sz =
      ⟨.success, dequeue q,
        (q.slots.getD q.head []) ++ buffer.drop (q.slots.getD q.head []).length,
        (q.slots.getD q.head []).length⟩ := by
  simp [receive, hrun, Nat.not_lt.mpr hbuf, Nat.pos_iff_ne_zero.mp hpos]

theorem sendList_ok (msgs : List (List Nat)) (q : QueueState)
    (hn : ringNormal q) (hs : q.slots.length = q.max_queue_size)
    (hrun : q.stopped = false)
    (hfit : ∀ msg ∈ msgs, msg.length ≤ q.max_message_size)
    (hcap : q.count + msgs.length ≤ q.max_queue_size) :
    (sendList q msgs).1 = .success ∧
    ringNormal (sendList q msgs).2 ∧
    (sendList q msgs).2.slots.length = (sendList q msgs).2.max_queue_size ∧
    (sendList q msgs).2.max_queue_size = q.max_queue_size ∧
    (sendList q msgs).2.max_message_size = q.max_message_size ∧
    (sendList q msgs).2.stopped = false ∧
    (sendList q msgs).2.count = q.count + msgs.length ∧
    contents (sendList q msgs).2 = contents q ++ msgs := by
  induction msgs generalizing q with
  | nil => simpa [sendList] using ⟨hn, hs, hrun⟩
  | cons msg rest ih =>
    have hlt : q.count < q.max_queue_size := by
      simp only [List.length_cons] at hcap; omega
    have hmsg : msg.length ≤ q.max_message_size := hfit msg (by simp)
    have hstep := send_success q msg hrun hlt hmsg
    have hred : sendList q (msg :: rest) = sendList (enqueue q msg) rest := by
      simp [sendList, hstep]
    rw [hred]
    have hn1 : ringNormal (enqueue q msg) := enqueue_normal q msg hn hlt
    have hs1 : (enqueue q msg).slots.length = (enqueue q msg).max_queue_size := by
      simp [enqueue, hs]
    have hrun1 : (enqueue q msg).stopped = false := hrun
    have hfit1 : ∀ m ∈ rest, m.length ≤ (enqueue q msg).max_message_size := by
      intro m hm
      exact hfit m (by simp [hm])
    have hcap1 : (enqueue q msg).count + rest.length ≤ (enqueue q msg).max_queue_size := by
      simp only [enqueue, List.length_cons] at hcap ⊢
      omega
    obtain ⟨h1, h2, h3, h4, h5, h6, h7, h8⟩ := ih (enqueue q msg) hn1 hs1 hrun1 hfit1 hcap1
    refine ⟨h1, h2, h3, ?_, ?_, h6, ?_, ?_⟩
    · rw [h4]; simp [enqueue]
    · rw [h5]; simp [enqueue]
    · rw [h7]; simp [enqueue, List.length_cons]; omega
    · rw [h8, contents_enqueue q msg hn hs hlt, List.append_assoc]
      simp

theorem receiveList_ok (n : Nat) (q : QueueState) (buffer : List Nat) (sz : Nat)
    (hn : ringNormal q) (hrun : q.stopped = false)
    (hbuf : q.max_message_size ≤ buffer.length) (hcnt : q.count = n) :
    (receiveList q n buffer sz).1 = .success ∧
    (receiveList q n buffer sz).2.2 = contents q := by
  induction n generalizing q with
  | zero =>
    refine ⟨by simp [receiveList], ?_⟩
    simp [receiveList, contents, hcnt]
  | succ k ih =>
    have hpos : 0 < q.count := by omega
    have hstep := receive_success q buffer sz hrun hpos hbuf
    have hred : receiveList q (k + 1) buffer sz =
        ((receiveList (dequeue q) k buffer sz).1,
         (receiveList (dequeue q) k buffer sz).2.1,
         ((q.slots.getD q.head [] ++ buffer.drop (q.slots.getD q.head []).length).take
            (q.slots.getD q.head []).length) :: (receiveList (dequeue q) k buffer sz).2.2) := by
      simp [receiveList, hstep]
    have hdq : ringNormal (dequeue q) := dequeue_normal q hn hpos
    have hrun1 : (dequeue q).stopped = false := hrun
    have hbuf1 : (dequeue q).max_message_size ≤ buffer.length := hbuf
    have hcnt1 : (dequeue q).count = k := by
      simp only [dequeue]; omega
    obtain ⟨h1, h2⟩ := ih (dequeue q) hdq hrun1 hbuf1 hcnt1
    rw [hred]
    refine ⟨h1, ?_⟩
    rw [contents_dequeue q hn hpos]
    simp only [h2]
    congr 1
    exact List.take_left _ _

/-- When the queue is stopped, its `stopped` flag survives every
operation other than `reset`. -/
theorem applyOp_stopped_true (q : QueueState) (op : QueueOp)
    (hs : q.stopped = true) (h : op ≠ .resetOp) : (applyOp q op).stopped = true := by
  cases op with
  | sendOp m =>
    simp only [applyOp, send]
    split_ifs <;> simp [enqueue, hs]
  | trySendOp m =>
    simp only [applyOp, try_send]
    split_ifs <;> simp [enqueue, hs]
  | receiveOp b s =>
    simp only [applyOp, receive]
    split_ifs <;> simp [dequeue, hs]
  | tryReceiveOp b s =>
    simp only [applyOp, try_receive]
    split_ifs <;> simp [dequeue, hs]
  | clearOp => simpa [applyOp, clear] using hs
  | stopOp => simp [applyOp, stop]
  | resetOp => exact absurd rfl h

/-!  The claims.  -/

/-- C1.  Round-trip: for every message `M` with `|M| ≤ max_message_size`
(including `|M| = 0`), a successful `send(M)` on an (empty, running)
queue followed by a successful `receive` into a buffer of size
`≥ max_message_size` yields `out_size = |M|` and a buffer whose first
`|M|` bytes equal `M`. -/
theorem send_receive_roundtrip (q : QueueState) (msg buffer : List Nat) (sz : Nat)
    (hinv : ringInvariant q) (hs : q.slots.length = q.max_queue_size)
    (hempty : q.count = 0) (hrun : q.stopped = false)
    (hmsg : msg.length ≤ q.max_message_size)
    (hbuf : q.max_message_size ≤ buffer.length) :
    (send q msg).1 = .success ∧
    (receive (send q msg).2 buffer sz).outcome = .success ∧
    (receive (send q msg).2 buffer sz).out_size = msg.length ∧
    (receive (send q msg).2 buffer sz).buffer.take msg.length = msg := by
  obtain ⟨hc, hh, htn⟩ := (ringInvariant_iff_normal q).mp hinv
  have hm : 0 < q.max_queue_size := by omega
  have hlt : q.count < q.max_queue_size := by omega
  have hstep := send_success q msg hrun hlt hmsg
  have hhead : q.tail = q.head := by
    rw [htn, hempty, Nat.add_zero, Nat.mod_eq_of_lt hh]
  have hmsg1 : (enqueue q msg).slots.getD (enqueue q msg).head [] = msg := by
    simp only [enqueue]
    rw [hhead]
    exact getD_set_self _ _ _ (by rw [hs]; exact hh)
  have hrun1 : (enqueue q msg).stopped = false := hrun
  have hpos1 : 0 < (enqueue q msg).count := by simp [enqueue]
  have hbuf1 : (enqueue q msg).max_message_size ≤ buffer.length := hbuf
  have hstep2 := receive_success (enqueue q msg) buffer sz hrun1 hpos1 hbuf1
  rw [hstep]
  refine ⟨rfl, ?_, ?_, ?_⟩
  · show (receive (enqueue q msg) buffer sz).outcome = .success
    rw [hstep2]
  · show (receive (enqueue q msg) buffer sz).out_size = msg.length
    rw [hstep2]
    simp only [hmsg1]
  · show (receive (enqueue q msg) buffer sz).buffer.take msg.length = msg
    rw [hstep2]
    simp only [hmsg1]
    exact List.take_left _ _

theorem send_receive_roundtrip_witness :
    (send (createQueue 2 8) [104, 105]).1 = .success ∧
    (receive (send (createQueue 2 8) [104, 105]).2 (List.replicate 8 0) 0).outcome = .success ∧
    (receive (send (createQueue 2 8) [104, 105]).2 (List.replicate 8 0) 0).out_size = 2 ∧
    (receive (send (createQueue 2 8) [104, 105]).2 (List.replicate 8 0) 0).buffer.take 2
      = [104, 105] :=
  send_receive_roundtrip (createQueue 2 8) [104, 105] (List.replicate 8 0) 0
    (by decide) (by decide) rfl rfl (by decide) (by decide)

/-- C2.  FIFO order: starting from an empty running queue, sending a
sequence of messages (each within the size bound, the sequence within
the capacity bound) succeeds, and receiving the same number of times
succeeds and returns exactly that sequence, byte-for-byte and in
order. -/
theorem fifo_order (q : QueueState) (msgs : List (List Nat)) (buffer : List Nat) (sz : Nat)
    (hinv : ringInvariant q) (hs : q.slots.length = q.max_queue_size)
    (hempty : q.count = 0) (hrun : q.stopped = false)
    (hfit : ∀ msg ∈ msgs, msg.length ≤ q.max_message_size)
    (hcap : msgs.length ≤ q.max_queue_size)
    (hbuf : q.max_message_size ≤ buffer.length) :
    (sendList q msgs).1 = .success ∧
    (receiveList (sendList q msgs).2 msgs.length buffer sz).1 = .success ∧
    (receiveList (sendList q msgs).2 msgs.length buffer sz).2.2 = msgs := by
  have hn := (ringInvariant_iff_normal q).mp hinv
  obtain ⟨hok, hn1, hs1, hm1, hmm1, hrun1, hcnt1, hcont1⟩ :=
    sendList_ok msgs q hn hs hrun hfit (by omega)
  have hbuf1 : (sendList q msgs).2.max_message_size ≤ buffer.length := by
    rw [hmm1]; exact hbuf
  have hcnt2 : (sendList q msgs).2.count = msgs.length := by omega
  obtain ⟨r1, r2⟩ := receiveList_ok msgs.length (sendList q msgs).2 buffer sz hn1 hrun1 hbuf1 hcnt2
  have hcq : contents q = [] := by simp [contents, hempty]
  refine ⟨hok, r1, ?_⟩
  rw [r2, hcont1, hcq, List.nil_append]

theorem fifo_order_witness :
    (sendList (createQueue 2 8) [[104, 105], [98, 121, 101]]).1 = .success ∧
    (receiveList (sendList (createQueue 2 8) [[104, 105], [98, 121, 101]]).2 2
      (List.replicate 8 0) 0).1 = .success ∧
    (receiveList (sendList (createQueue 2 8) [[104, 105], [98, 121, 101]]).2 2
      (List.replicate 8 0) 0).2.2 = [[104, 105], [98, 121, 101]] :=
  fifo_order (createQueue 2 8) [[104, 105], [98, 121, 101]] (List.replicate 8 0) 0
    (by decide) (by decide) rfl rfl (by decide) (by decide) (by decide)

/-- C3.  Every queue operation (`send`, `try_send`, `receive`,
`try_receive`, `clear`, `stop`, `reset`) preserves the ring invariant:
`0 ≤ count ≤ max_queue_size`, `head, tail ∈ [0, max_queue_size)`,
`count = (tail − head) mod max_queue_size` when not full, and
`head = tail` with `count = max_queue_size` when full. -/
theorem ops_preserve_ringInvariant (q : QueueState) (op : QueueOp)
    (h : ringInvariant q) : ringInvariant (applyOp q op) := by
  rw [ringInvariant_iff_normal] at h ⊢
  obtain ⟨hc, hh, htn⟩ := h
  have hm : 0 < q.max_queue_size := by omega
  cases op with
  | sendOp msg =>
    simp only [applyOp, send]
    split_ifs with h1 h2 h3
    · exact ⟨hc, hh, htn⟩
    · exact ⟨hc, hh, htn⟩
    · exact ⟨hc, hh, htn⟩
    · refine enqueue_normal q msg ⟨hc, hh, htn⟩ ?_
      rcases Nat.lt_or_ge q.count q.max_queue_size with hlt | hge
      · exact hlt
      · exact absurd ⟨by omega, by simpa using h3⟩ h2
  | trySendOp msg =>
    simp only [applyOp, try_send]
    split_ifs with h1 h2
    · exact ⟨hc, hh, htn⟩
    · exact ⟨hc, hh, htn⟩
    · exact enqueue_normal q msg ⟨hc, hh, htn⟩ (by omega)
  | receiveOp buffer out_size =>
    simp only [applyOp, receive]
    split_ifs with h1 h2 h3
    · exact ⟨hc, hh, htn⟩
    · exact ⟨hc, hh, htn⟩
    · exact ⟨hc, hh, htn⟩
    · show ringNormal (dequeue q)
      refine dequeue_normal q ⟨hc, hh, htn⟩ ?_
      have hstop : q.stopped = false := by simpa using h3
      have : q.count ≠ 0 := fun h0 => h2 ⟨h0, hstop⟩
      omega
  | tryReceiveOp buffer out_size =>
    simp only [applyOp, try_receive]
    split_ifs with h1 h2
    · exact ⟨hc, hh, htn⟩
    · exact ⟨hc, hh, htn⟩
    · exact dequeue_normal q ⟨hc, hh, htn⟩ (by omega)
  | clearOp =>
    refine ⟨?_, ?_, ?_⟩
    · simp [applyOp, clear]
    · simpa [applyOp, clear] using hm
    · simp [applyOp, clear]
  | stopOp => exact ⟨hc, hh, htn⟩
  | resetOp => exact ⟨hc, hh, htn⟩

theorem ops_preserve_ringInvariant_witness :
    ringInvariant (createQueue 2 8) ∧
    ringInvariant (applyOp (createQueue 2 8) (.sendOp [1])) :=
  ⟨by decide, ops_preserve_ringInvariant (createQueue 2 8) (.sendOp [1]) (by decide)⟩

/-- C4.  `try_send` on a full queue returns *would-block* and leaves the
state unchanged, with no assumption on the `stopped` flag; on a non-full
queue it appends the message to the queue's contents and returns
*success*. -/
theorem try_send_spec (q : QueueState) (msg : List Nat)
    (hinv : ringInvariant q) (hs : q.slots.length = q.max_queue_size)
    (hmsg : msg.length ≤ q.max_message_size) :
    (q.count = q.max_queue_size → try_send q msg = (.wouldBlock, q)) ∧
    (q.count < q.max_queue_size →
      (try_send q msg).1 = .success ∧
      (try_send q msg).2.count = q.count + 1 ∧
      contents (try_send q msg).2 = contents q ++ [msg]) := by
  have hn := (ringInvariant_iff_normal q).mp hinv
  constructor
  · intro hfull
    simp [try_send, Nat.not_lt.mpr hmsg, hfull]
  · intro hlt
    have hred : try_send q msg = (.success, enqueue q msg) := by
      simp [try_send, Nat.not_lt.mpr hmsg, Nat.ne_of_lt hlt]
    rw [hred]
    exact ⟨rfl, rfl, contents_enqueue q msg hn hs hlt⟩

theorem try_send_spec_witness :
    try_send ⟨1, 4, 1, 0, 0, true, [[97]]⟩ [98] = (.wouldBlock, ⟨1, 4, 1, 0, 0, true, [[97]]⟩) ∧
    (try_send (createQueue 1 4) [97]).1 = .success :=
  ⟨(try_send_spec ⟨1, 4, 1, 0, 0, true, [[97]]⟩ [98] (by decide) (by decide) (by decide)).1 rfl,
   ((try_send_spec (createQueue 1 4) [97] (by decide) (by decide) (by decide)).2 (by decide)).1⟩

/-- C5.  Once `stopped = true`: a blocking `send` on a full queue and a
blocking `receive` on an empty queue return *interrupted* immediately
(not `blocked`) with the state unchanged; the stopped state persists
across every operation except `reset`; and `reset` re-enables running
state. -/
theorem stop_interrupts (q : QueueState) (msg buffer : List Nat) (sz : Nat) (op : QueueOp)
    (hstop : q.stopped = true) :
    (msg.length ≤ q.max_message_size → q.count = q.max_queue_size →
      send q msg = (.interrupted, q)) ∧
    (q.max_message_size ≤ buffer.length → q.count = 0 →
      receive q buffer sz = ⟨.interrupted, q, buffer, sz⟩) ∧
    (op ≠ .resetOp → (applyOp q op).stopped = true) ∧
    (reset q).stopped = false := by
  refine ⟨?_, ?_, applyOp_stopped_true q op hstop, rfl⟩
  · intro hmsg hfull
    simp [send, hstop, Nat.not_lt.mpr hmsg, hfull]
  · intro hbuf hempty
    simp [receive, hstop, Nat.not_lt.mpr hbuf, hempty]

theorem stop_interrupts_witness :
    send ⟨0, 4, 0, 0, 0, true, []⟩ [7] = (.interrupted, ⟨0, 4, 0, 0, 0, true, []⟩) ∧
    receive ⟨0, 4, 0, 0, 0, true, []⟩ [0, 0, 0, 0] 0 =
      ⟨.interrupted, ⟨0, 4, 0, 0, 0, true, []⟩, [0, 0, 0, 0], 0⟩ ∧
    (applyOp ⟨0, 4, 0, 0, 0, true, []⟩ .clearOp).stopped = true ∧
    (reset ⟨0, 4, 0, 0, 0, true, []⟩).stopped = false :=
  ⟨(stop_interrupts ⟨0, 4, 0, 0, 0, true, []⟩ [7] [0, 0, 0, 0] 0 .clearOp rfl).1
      (by decide) rfl,
   (stop_interrupts ⟨0, 4, 0, 0, 0, true, []⟩ [7] [0, 0, 0, 0] 0 .clearOp rfl).2.1
      (by decide) rfl,
   (stop_interrupts ⟨0, 4, 0, 0, 0, true, []⟩ [7] [0, 0, 0, 0] 0 .clearOp rfl).2.2.1
      (by decide),
   (stop_interrupts ⟨0, 4, 0, 0, 0, true, []⟩ [7] [0, 0, 0, 0] 0 .clearOp rfl).2.2.2⟩

/-- C6.  Precondition violations are logic errors and atomic: `send`
with `message_size > max_message_size` throws `std::logic_error`,
`receive` with `buffer_size < max_message_size` throws
`std::logic_error`, and in both cases the whole queue state is
unchanged (and the buffer and out-parameter untouched). -/
theorem precondition_violations (q : QueueState) (msg buffer : List Nat) (sz : Nat)
    (hmsg : q.max_message_size < msg.length) (hbuf : buffer.length < q.max_message_size) :
    send q msg = (.logicError, q) ∧
    receive q buffer sz = ⟨.logicError, q, buffer, sz⟩ :=
  ⟨by simp [send, hmsg], by simp [receive, hbuf]⟩

theorem precondition_violations_witness :
    send (createQueue 2 4) [1, 2, 3, 4, 5] = (.logicError, createQueue 2 4) ∧
    receive (createQueue 2 4) [0, 0, 0] 0 = ⟨.logicError, createQueue 2 4, [0, 0, 0], 0⟩ :=
  precondition_violations (createQueue 2 4) [1, 2, 3, 4, 5] [0, 0, 0] 0 (by decide) (by decide)

/-- C7.  `open_or_create` on the name of an existing queue ignores the
caller-supplied capacities: the handle is associated with the existing
queue, whose `max_queue_size`/`max_message_size` are the creator's
values, and the namespace is unchanged. -/
theorem open_or_create_existing (reg : Registry) (name : String) (q0 : QueueState)
    (h : reg name = some q0) (mqs mms : Nat) :
    (open_or_create reg name mqs mms).2.max_queue_size = q0.max_queue_size ∧
    (open_or_create reg name mqs mms).2.max_message_size = q0.max_message_size ∧
    (open_or_create reg name mqs mms).1 = reg := by
  simp [open_or_create, h]

theorem open_or_create_existing_witness :
    (open_or_create (fun n => if n = "q1" then some (createQueue 2 8) else none)
      "q1" 5 6).2.max_queue_size = 2 ∧
    (open_or_create (fun n => if n = "q1" then some (createQueue 2 8) else none)
      "q1" 5 6).2.max_message_size = 8 ∧
    (open_or_create (fun n => if n = "q1" then some (createQueue 2 8) else none)
      "q1" 5 6).1 = (fun n => if n = "q1" then some (createQueue 2 8) else none) :=
  open_or_create_existing (fun n => if n = "q1" then some (createQueue 2 8) else none)
    "q1" (createQueue 2 8) rfl 5 6

/-- C8.  `clear` sets `count`, `head` and `tail` to 0, leaves
`max_queue_size`, `max_message_size` and `stopped` unchanged; afterwards
`try_receive` returns *would-block* (the queue is empty), and a sender
can proceed: on a running queue a `send` after `clear` succeeds. -/
theorem clear_spec (q : QueueState) (msg buffer : List Nat) (sz : Nat)
    (hmq : 0 < q.max_queue_size) (hmsg : msg.length ≤ q.max_message_size)
    (hbuf : q.max_message_size ≤ buffer.length) :
    (clear q).count = 0 ∧ (clear q).head = 0 ∧ (clear q).tail = 0 ∧
    (clear q).max_queue_size = q.max_queue_size ∧
    (clear q).max_message_size = q.max_message_size ∧
    (clear q).stopped = q.stopped ∧
    (try_receive (clear q) buffer sz).outcome = .wouldBlock ∧
    (q.stopped = false → (send (clear q) msg).1 = .success) := by
  refine ⟨rfl, rfl, rfl, rfl, rfl, rfl, ?_, ?_⟩
  · simp [try_receive, clear, Nat.not_lt.mpr hbuf]
  · intro hrun
    have hrun1 : (clear q).stopped = false := hrun
    have hlt : (clear q).count < (clear q).max_queue_size := by
      simpa [clear] using hmq
    rw [send_success (clear q) msg hrun1 hlt hmsg]

theorem clear_spec_witness :
    (clear ⟨2, 4, 2, 1, 1, false, [[5], [6]]⟩).count = 0 ∧
    (clear ⟨2, 4, 2, 1, 1, false, [[5], [6]]⟩).head = 0 ∧
    (clear ⟨2, 4, 2, 1, 1, false, [[5], [6]]⟩).tail = 0 ∧
    (clear ⟨2, 4, 2, 1, 1, false, [[5], [6]]⟩).max_queue_size = 2 ∧
    (clear ⟨2, 4, 2, 1, 1, false, [[5], [6]]⟩).max_message_size = 4 ∧
    (clear ⟨2, 4, 2, 1, 1, false, [[5], [6]]⟩).stopped = false ∧
    (try_receive (clear ⟨2, 4, 2, 1, 1, false, [[5], [6]]⟩) [0, 0, 0, 0] 0).outcome
      = .wouldBlock ∧
    (false = false →
      (send (clear ⟨2, 4, 2, 1, 1, false, [[5], [6]]⟩) [7]).1 = .success) :=
  clear_spec ⟨2, 4, 2, 1, 1, false, [[5], [6]]⟩ [7] [0, 0, 0, 0] 0
    (by decide) (by decide) (by decide)

/-- C9.  Move semantics transfer the association exactly: after
move-construction or move-assignment of object `b` into object `a`, `a`
holds the `m_pImpl` that `b` held (so `a.is_open()` equals `b`'s prior
`is_open()`) and `b` is left default-constructed (`m_pImpl = NULL`,
`is_open() = false`); self-move-assignment leaves the object
unchanged. -/
theorem move_semantics (mem : Mem) (a b tmp : Nat)
    (hab : a ≠ b) (hta : tmp ≠ a) (htb : tmp ≠ b) :
    (moveConstruct mem a b a = mem b ∧ moveConstruct mem a b b = none ∧
      is_open (moveConstruct mem a b a) = is_open (mem b) ∧
      is_open (moveConstruct mem a b b) = false) ∧
    (moveAssign mem a b tmp a = mem b ∧ moveAssign mem a b tmp b = none ∧
      is_open (moveAssign mem a b tmp a) = is_open (mem b) ∧
      is_open (moveAssign mem a b tmp b) = false) ∧
    moveAssign mem a a tmp a = mem a := by
  refine ⟨⟨?_, ?_, ?_, ?_⟩, ⟨?_, ?_, ?_, ?_⟩, ?_⟩ <;>
    simp [moveConstruct, moveAssign, writeObj, destructor, close, do_close, is_open,
      hab, hta, htb, Ne.symm hab, Ne.symm hta, Ne.symm htb]

theorem move_semantics_witness :
    (moveConstruct (fun j => if j = 0 then some 10 else none) 1 0 1 = some 10 ∧
      moveConstruct (fun j => if j = 0 then some 10 else none) 1 0 0 = none ∧
      is_open (moveConstruct (fun j => if j = 0 then some 10 else none) 1 0 1) = true ∧
      is_open (moveConstruct (fun j => if j = 0 then some 10 else none) 1 0 0) = false) ∧
    (moveAssign (fun j => if j = 0 then some 10 else none) 1 0 2 1 = some 10 ∧
      moveAssign (fun j => if j = 0 then some 10 else none) 1 0 2 0 = none ∧
      is_open (moveAssign (fun j => if j = 0 then some 10 else none) 1 0 2 1) = true ∧
      is_open (moveAssign (fun j => if j = 0 then some 10 else none) 1 0 2 0) = false) ∧
    moveAssign (fun j => if j = 0 then some 10 else none) 1 1 2 1 = none :=
  move_semantics (fun j => if j = 0 then some 10 else none) 1 0 2
    (by decide) (by decide) (by decide)

/-- C10.  `close` is idempotent and total on the handle: on a
non-associated handle (`m_pImpl = NULL`, `is_open() = false`) it is a
no-op, its postcondition `is_open() = false` always holds, closing twice
equals closing once, and the destructor performs exactly `close()`. -/
theorem close_total_idempotent (p : Option Nat) :
    is_open (close p) = false ∧
    close none = none ∧
    close (close p) = close p ∧
    destructor p = close p := by
  cases p <;> simp [close, do_close, is_open, destructor]

end IpcMQ
